import Mathlib

/-!
A verification development for the content-addressable file-matching
scripts of this repository.  The Python sources are shallowly embedded:
`hashlib.md5` is modelled by a full executable MD5 implementation over
byte lists (bytes are `Nat` values), the incremental accumulator by an
explicit byte buffer, the filesystem by explicit records carrying a
path, metadata and optional content (`none` models a read that raises),
and the insertion-ordered Python `dict` by an association list whose
update function appends new keys at the end.
-/

/-! ## MD5 (RFC 1321) over byte lists -/

/-- 2^32, the modulus for all 32-bit arithmetic in MD5. -/
def M32 : Nat := 4294967296

/-- 32-bit left rotation (inputs are kept below `M32` by construction). -/
def rotl32 (x s : Nat) : Nat := ((x <<< s) % M32) ||| (x >>> (32 - s))

/-- 32-bit bitwise complement via xor with the all-ones mask. -/
def not32 (x : Nat) : Nat := 4294967295 ^^^ x

/-- MD5 round function F (rounds 0-15). -/
def mdF (b c d : Nat) : Nat := (b &&& c) ||| (not32 b &&& d)

/-- MD5 round function G (rounds 16-31). -/
def mdG (b c d : Nat) : Nat := (d &&& b) ||| (not32 d &&& c)

/-- MD5 round function H (rounds 32-47). -/
def mdH (b c d : Nat) : Nat := b ^^^ c ^^^ d

/-- MD5 round function I (rounds 48-63). -/
def mdI (b c d : Nat) : Nat := c ^^^ (b ||| not32 d)

/-- The 64 MD5 sine-derived constants. -/
def mdK : List Nat :=
  [0xd76aa478, 0xe8c7b756, 0x242070db, 0xc1bdceee, 0xf57c0faf, 0x4787c62a, 0xa8304613, 0xfd469501,
   0x698098d8, 0x8b44f7af, 0xffff5bb1, 0x895cd7be, 0x6b901122, 0xfd987193, 0xa679438e, 0x49b40821,
   0xf61e2562, 0xc040b340, 0x265e5a51, 0xe9b6c7aa, 0xd62f105d, 0x02441453, 0xd8a1e681, 0xe7d3fbc8,
   0x21e1cde6, 0xc33707d6, 0xf4d50d87, 0x455a14ed, 0xa9e3e905, 0xfcefa3f8, 0x676f02d9, 0x8d2a4c8a,
   0xfffa3942, 0x8771f681, 0x6d9d6122, 0xfde5380c, 0xa4beea44, 0x4bdecfa9, 0xf6bb4b60, 0xbebfbc70,
   0x289b7ec6, 0xeaa127fa, 0xd4ef3085, 0x04881d05, 0xd9d4d039, 0xe6db99e5, 0x1fa27cf8, 0xc4ac5665,
   0xf4292244, 0x432aff97, 0xab9423a7, 0xfc93a039, 0x655b59c3, 0x8f0ccc92, 0xffeff47d, 0x85845dd1,
   0x6fa87e4f, 0xfe2ce6e0, 0xa3014314, 0x4e0811a1, 0xf7537e82, 0xbd3af235, 0x2ad7d2bb, 0xeb86d391]

/-- The 64 MD5 per-round left-rotation amounts. -/
def mdS : List Nat :=
  [7, 12, 17, 22, 7, 12, 17, 22, 7, 12, 17, 22, 7, 12, 17, 22,
   5, 9, 14, 20, 5, 9, 14, 20, 5, 9, 14, 20, 5, 9, 14, 20,
   4, 11, 16, 23, 4, 11, 16, 23, 4, 11, 16, 23, 4, 11, 16, 23,
   6, 10, 15, 21, 6, 10, 15, 21, 6, 10, 15, 21, 6, 10, 15, 21]

/-- The `g`-th little-endian 32-bit word of a 64-byte block. -/
def wordAt (block : List Nat) (g : Nat) : Nat :=
  block.getD (4 * g) 0 + 256 * block.getD (4 * g + 1) 0 +
    65536 * block.getD (4 * g + 2) 0 + 16777216 * block.getD (4 * g + 3) 0

/-- One MD5 round: state `(a,b,c,d)`, round index `i`, message words via `m`. -/
def md5Round (m : Nat → Nat) (st : Nat × Nat × Nat × Nat) (i : Nat) : Nat × Nat × Nat × Nat :=
  let a := st.1
  let b := st.2.1
  let c := st.2.2.1
  let d := st.2.2.2
  let fg : Nat × Nat :=
    if i < 16 then (mdF b c d, i)
    else if i < 32 then (mdG b c d, (5 * i + 1) % 16)
    else if i < 48 then (mdH b c d, (3 * i + 5) % 16)
    else (mdI b c d, (7 * i) % 16)
  let t := (((fg.1 + a) % M32 + mdK.getD i 0) % M32 + m fg.2) % M32
  (d, (b + rotl32 t (mdS.getD i 0)) % M32, b, c)

/-- Process one 64-byte block: run 64 rounds and add the result to the state. -/
def md5ProcessBlock (st : Nat × Nat × Nat × Nat) (block : List Nat) : Nat × Nat × Nat × Nat :=
  let r := (List.range 64).foldl (md5Round (wordAt block)) st
  ((st.1 + r.1) % M32, (st.2.1 + r.2.1) % M32, (st.2.2.1 + r.2.2.1) % M32, (st.2.2.2 + r.2.2.2) % M32)

/-- A `Nat` as 8 little-endian bytes (the 64-bit length field). -/
def toLE64 (n : Nat) : List Nat :=
  [n % 256, n / 256 % 256, n / 65536 % 256, n / 16777216 % 256,
   n / 4294967296 % 256, n / 1099511627776 % 256, n / 281474976710656 % 256,
   n / 72057594037927936 % 256]

/-- A 32-bit word as 4 little-endian bytes. -/
def toLE32 (n : Nat) : List Nat :=
  [n % 256, n / 256 % 256, n / 65536 % 256, n / 16777216 % 256]

/-- MD5 padding: a 0x80 byte, zeros to 56 mod 64, then the bit length. -/
def md5Pad (msg : List Nat) : List Nat :=
  msg ++ 128 :: List.replicate ((119 - msg.length % 64) % 64) 0 ++ toLE64 (8 * msg.length)

/-- Split a byte list into chunks of `k` bytes (fuel-driven structural
recursion; the last chunk may be shorter).  With fuel at least the list
length this is exactly the sequence of successive `k`-byte reads the
Python loop `iter(lambda: f.read(k), b'')` performs. -/
def chunksAux (k : Nat) : Nat → List Nat → List (List Nat)
  | _, [] => []
  | 0, _ => []
  | fuel + 1, x :: xs => List.take k (x :: xs) :: chunksAux k fuel (List.drop k (x :: xs))

/-- Split a byte list into chunks of `k` bytes. -/
def chunksOf (k : Nat) (l : List Nat) : List (List Nat) := chunksAux k l.length l

/-- The MD5 core: pad, then fold the block compression over 64-byte blocks. -/
def md5Core (msg : List Nat) : Nat × Nat × Nat × Nat :=
  (chunksOf 64 (md5Pad msg)).foldl md5ProcessBlock (0x67452301, 0xefcdab89, 0x98badcfe, 0x10325476)

/-- The 16 digest bytes of a message. -/
def md5DigestBytes (msg : List Nat) : List Nat :=
  toLE32 (md5Core msg).1 ++ toLE32 (md5Core msg).2.1 ++
    toLE32 (md5Core msg).2.2.1 ++ toLE32 (md5Core msg).2.2.2

/-- Lowercase hexadecimal digit for a value below 16. -/
def hexDigitChar (n : Nat) : Char :=
  if n < 10 then Char.ofNat (48 + n) else Char.ofNat (87 + n)

/-- The sixteen lowercase hexadecimal digits. -/
def hexDigits : List Char := (List.range 16).map hexDigitChar

/-- Two hex characters for one byte. -/
def byteToHex (b : Nat) : List Char := [hexDigitChar (b / 16 % 16), hexDigitChar (b % 16)]

/-- Hex string of a byte list. -/
def bytesToHex (bs : List Nat) : String := ⟨bs.flatMap byteToHex⟩

/-- `hashlib.md5(msg).hexdigest()`: the 32-character lowercase hex digest. -/
def md5Hex (msg : List Nat) : String := bytesToHex (md5DigestBytes msg)

set_option maxRecDepth 4096 in
/-- RFC 1321 test vector: the MD5 of the empty message. -/
theorem md5Hex_nil : md5Hex [] = "d41d8cd98f00b204e9800998ecf8427e" := by decide

set_option maxRecDepth 4096 in
/-- RFC 1321 test vector: the MD5 of "abc". -/
theorem md5Hex_abc : md5Hex [97, 98, 99] = "900150983cd24fb0d6963f7d28e17f72" := by decide

/-! ## The hashlib accumulator and the two `calculate_md5` functions

`hashlib`'s documented contract is that `update` concatenates: feeding
`a` then `b` equals feeding `a + b`, and `hexdigest()` is the hash of
everything fed so far.  The accumulator state is therefore the byte
buffer fed so far. -/

/-- The buffer of bytes fed to an md5 accumulator so far. -/
abbrev Md5Buf := List Nat

/-- `hashlib.md5()`: a fresh accumulator. -/
def md5_new : Md5Buf := []

/-- `md5_hash.update(chunk)`. -/
def md5_update (s : Md5Buf) (chunk : List Nat) : Md5Buf := s ++ chunk

/-- `md5_hash.hexdigest()`. -/
def md5_hexdigest (s : Md5Buf) : String := md5Hex s

/-- A file as the scripts observe it: a path, filesystem metadata, and
the byte content, `none` when opening or reading the file raises. -/
structure FSFile where
  path : String
  mtime : Nat
  perm : Nat
  content : Option (List Nat)
deriving DecidableEq

/-- `calculate_md5` of `compare_resources.py`: stream the content in
4096-byte chunks through the accumulator and return the hex digest, or
the sentinel `""` when the read raises. -/
def calculate_md5 (f : FSFile) : String :=
  match f.content with
  | some bytes => md5_hexdigest ((chunksOf 4096 bytes).foldl md5_update md5_new)
  | none => ""

/-- `calculate_md5` of `find_duplicate_files_simple.py`: identical
streaming, but the failure sentinel is `None`. -/
def calculate_md5_opt (f : FSFile) : Option String :=
  match f.content with
  | some bytes => some (md5_hexdigest ((chunksOf 4096 bytes).foldl md5_update md5_new))
  | none => none

/-! ## The insertion-ordered digest dictionary -/

/-- One `md5_dict[k].append(v)` step (with `md5_dict[k] = []` first when
the key is new): a Python dict keeps keys in insertion order, so a new
key goes to the end of the association list and an existing key keeps
its position, its path list extended at the end. -/
def insertMd5 (d : List (String × List String)) (k v : String) : List (String × List String) :=
  match d with
  | [] => [(k, [v])]
  | (k', vs) :: rest =>
      if k = k' then (k', vs ++ [v]) :: rest else (k', vs) :: insertMd5 rest k v

/-- The keys of the dictionary, in order. -/
def listKeys (d : List (String × List String)) : List String := d.map Prod.fst

/-- The body of the scan loop of `scan_directory`: fingerprint one file
and record it under its digest unless the truthiness guard
`if md5_value:` rejects the empty-string sentinel. -/
def scanStep (d : List (String × List String)) (f : FSFile) : List (String × List String) :=
  if calculate_md5 f ≠ "" then insertMd5 d (calculate_md5 f) f.path else d

/-- `scan_directory` of `compare_resources.py`, run over the files that
`os.walk` yields in traversal order. -/
def scan_directory (files : List FSFile) : List (String × List String) :=
  files.foldl scanStep []

/-- The body of the scan loop of `find_duplicate_files`: the guard
`if md5_value:` rejects the `None` sentinel. -/
def dupScanStep (d : List (String × List String)) (f : FSFile) : List (String × List String) :=
  match calculate_md5_opt f with
  | some m => insertMd5 d m f.path
  | none => d

/-- The `md5_dict` built by the scan loop of `find_duplicate_files`. -/
def md5_index (files : List FSFile) : List (String × List String) :=
  files.foldl dupScanStep []

/-- The filtering comprehension of `find_duplicate_files`: keep the
digests with more than one path, in dictionary order. -/
def duplicate_groups (files : List FSFile) : List (String × List String) :=
  (md5_index files).filter (fun p => 1 < p.2.length)

/-- A root directory argument as the scripts observe it: whether the
path exists, whether it is a directory, and the files `os.walk` yields. -/
structure RootDir where
  present : Bool
  isDir : Bool
  files : List FSFile

/-- `find_duplicate_files` of `find_duplicate_files_simple.py` including
its root validation: a missing or non-directory root is `sys.exit(1)`,
modelled as `Except.error 1`. -/
def find_duplicate_files (r : RootDir) : Except Nat (List (String × List String)) :=
  if ¬ r.present then Except.error 1
  else if ¬ (r.present && r.isDir) then Except.error 1
  else Except.ok (duplicate_groups r.files)

/-- `compare_directories` of `compare_resources.py`: scan both trees,
intersect the digest key sets, and emit `(digest, paths1, paths2)` for
every shared digest in `sorted` order. -/
def compare_directories (files1 files2 : List FSFile) :
    List (String × List String × List String) :=
  let d1 := scan_directory files1
  let d2 := scan_directory files2
  let common := (listKeys d1).filter (fun k => (listKeys d2).contains k)
  (common.mergeSort (fun a b => decide (a ≤ b))).map
    (fun m => (m, ((d1.lookup m).getD []), ((d2.lookup m).getD [])))

/-- `main` of `compare_resources.py`: on an invalid root it prints an
error and returns from `main`, so the process exits with status 0 and
no scan runs; the script contains no `sys.exit` at all, so the exit
status is 0 on every path.  The result is the exit status paired with
the comparison results when the scans ran. -/
def compare_resources_main (r1 r2 : RootDir) :
    Nat × Option (List (String × List String × List String)) :=
  if ¬ (r1.present && r1.isDir) then (0, none)
  else if ¬ (r2.present && r2.isDir) then (0, none)
  else (0, some (compare_directories r1.files r2.files))

/-! ## Basic lemmas about chunking and the digest format -/

/-- With enough fuel, concatenating the chunks gives back the list. -/
lemma chunksAux_flatten (k : Nat) (hk : 0 < k) :
    ∀ (fuel : Nat) (l : List Nat), l.length ≤ fuel → (chunksAux k fuel l).flatten = l := by
  intro fuel
  induction fuel with
  | zero =>
      intro l hl
      have : l = [] := List.eq_nil_of_length_eq_zero (Nat.le_zero.mp hl)
      subst this
      rfl
  | succ n ih =>
      intro l hl
      match l with
      | [] => rfl
      | x :: xs =>
          have hdrop : (List.drop k (x :: xs)).length ≤ n := by
            rw [List.length_drop]
            have : (x :: xs).length ≤ n + 1 := hl
            omega
          simp only [chunksAux, List.flatten_cons, ih _ hdrop, List.take_append_drop]

/-- Concatenating the 4096-byte chunks of a byte list gives back the list. -/
lemma chunksOf_flatten (k : Nat) (hk : 0 < k) (l : List Nat) :
    (chunksOf k l).flatten = l :=
  chunksAux_flatten k hk l.length l (Nat.le_refl _)

/-- Folding `md5_update` over any chunk list appends its concatenation. -/
lemma foldl_md5_update (chunks : List (List Nat)) :
    ∀ acc : Md5Buf, chunks.foldl md5_update acc = acc ++ chunks.flatten := by
  induction chunks with
  | nil => intro acc; simp [List.flatten]
  | cons c cs ih =>
      intro acc
      simp only [List.foldl_cons, List.flatten_cons, ih, md5_update, List.append_assoc]

/-- The digest byte list always has exactly 16 bytes. -/
lemma md5DigestBytes_length (msg : List Nat) : (md5DigestBytes msg).length = 16 := by
  simp [md5DigestBytes, toLE32]

/-- Hex encoding yields two characters per byte. -/
lemma flatMap_byteToHex_length (bs : List Nat) :
    (bs.flatMap byteToHex).length = 2 * bs.length := by
  induction bs with
  | nil => rfl
  | cons b rest ih =>
      simp only [List.flatMap_cons, byteToHex, List.length_append, List.length_cons,
        List.length_nil, List.length_cons, ih]
      omega

/-- Hex encoding doubles the length. -/
lemma bytesToHex_length (bs : List Nat) : (bytesToHex bs).length = 2 * bs.length := by
  show (bs.flatMap byteToHex).length = 2 * bs.length
  exact flatMap_byteToHex_length bs

/-- Every md5 hex digest has exactly 32 characters. -/
lemma md5Hex_length (msg : List Nat) : (md5Hex msg).length = 32 := by
  rw [md5Hex, bytesToHex_length, md5DigestBytes_length]

/-- An md5 hex digest is never the empty string. -/
lemma md5Hex_ne_empty (msg : List Nat) : md5Hex msg ≠ "" := by
  intro h
  have := md5Hex_length msg
  rw [h] at this
  simp [String.length] at this

/-- A hex digit character of a value below 16 is one of the sixteen
lowercase hexadecimal digits. -/
lemma hexDigitChar_mem : ∀ n < 16, hexDigitChar n ∈ hexDigits := by decide

/-- Every character of an md5 hex digest is a hexadecimal digit. -/
lemma md5Hex_chars (msg : List Nat) : ∀ c ∈ (md5Hex msg).data, c ∈ hexDigits := by
  intro c hc
  simp only [md5Hex, bytesToHex, List.mem_flatMap] at hc
  obtain ⟨b, _, hb⟩ := hc
  simp only [byteToHex, List.mem_cons, List.not_mem_nil, or_false] at hb
  rcases hb with h | h
  · exact h ▸ hexDigitChar_mem _ (Nat.mod_lt _ (by omega))
  · exact h ▸ hexDigitChar_mem _ (Nat.mod_lt _ (by omega))

/-! ## Lemmas about `calculate_md5` -/

/-- On readable content, the chunked fingerprint is the md5 of the bytes. -/
lemma calculate_md5_some (f : FSFile) (bytes : List Nat) (h : f.content = some bytes) :
    calculate_md5 f = md5Hex bytes := by
  simp only [calculate_md5, h, md5_hexdigest, foldl_md5_update, md5_new, List.nil_append,
    chunksOf_flatten 4096 (by omega)]

/-- The compare-script fingerprint returns its `""` sentinel exactly on
unreadable files. -/
lemma calculate_md5_eq_empty_iff (f : FSFile) : calculate_md5 f = "" ↔ f.content = none := by
  cases h : f.content with
  | none => simp [calculate_md5, h]
  | some bytes =>
      simp only [h, Option.some_ne_none, iff_false]
      rw [calculate_md5_some f bytes h]
      exact md5Hex_ne_empty bytes

/-- The two scripts' fingerprint functions agree: the optional variant is
`some` of the string variant exactly on readable files. -/
lemma calculate_md5_opt_eq (f : FSFile) :
    calculate_md5_opt f = if f.content.isSome then some (calculate_md5 f) else none := by
  cases h : f.content with
  | none => simp [calculate_md5_opt, calculate_md5, h]
  | some bytes => simp [calculate_md5_opt, calculate_md5, h]

/-! ## Lemmas about the insertion-ordered dictionary -/

/-- Looking a key up after an `insertMd5` step. -/
lemma lookup_insertMd5 (d : List (String × List String)) (k v j : String) :
    (insertMd5 d k v).lookup j =
      if j = k then some (((d.lookup k).getD []) ++ [v]) else d.lookup j := by
  induction d with
  | nil =>
      by_cases hj : j = k
      · subst hj
        simp [insertMd5, List.lookup]
      · have hb : (j == k) = false := beq_eq_false_iff_ne.mpr hj
        simp [insertMd5, List.lookup, hj, hb]
  | cons p rest ih =>
      obtain ⟨k', vs⟩ := p
      by_cases hk : k = k'
      · subst hk
        by_cases hj : j = k
        · subst hj
          simp [insertMd5, List.lookup]
        · have hb : (j == k) = false := beq_eq_false_iff_ne.mpr hj
          simp [insertMd5, List.lookup, hj, hb]
      · have hkb : (k == k') = false := beq_eq_false_iff_ne.mpr hk
        by_cases hj : j = k'
        · subst hj
          have hjk : ¬ j = k := fun h => hk h.symm
          have hjkb : (j == k) = false := beq_eq_false_iff_ne.mpr hjk
          simp [insertMd5, hk, List.lookup, hjk, hkb]
        · have hjb : (j == k') = false := beq_eq_false_iff_ne.mpr hj
          simp [insertMd5, hk, List.lookup, hjb, hkb, ih]

/-- The keys after an `insertMd5` step: unchanged for a present key, the
new key appended at the end otherwise. -/
lemma listKeys_insertMd5 (d : List (String × List String)) (k v : String) :
    listKeys (insertMd5 d k v) =
      if k ∈ listKeys d then listKeys d else listKeys d ++ [k] := by
  induction d with
  | nil => simp [insertMd5, listKeys]
  | cons p rest ih =>
      obtain ⟨k', vs⟩ := p
      by_cases hk : k = k'
      · subst hk
        simp [insertMd5, listKeys]
      · simp only [insertMd5, if_neg hk]
        simp only [listKeys, List.map_cons] at ih ⊢
        rw [ih]
        by_cases hm : k ∈ List.map Prod.fst rest
        · simp [hm, hk]
        · simp [hm, hk]

/-- `insertMd5` preserves distinctness of the keys. -/
lemma nodup_insertMd5 (d : List (String × List String)) (k v : String)
    (h : (listKeys d).Nodup) : (listKeys (insertMd5 d k v)).Nodup := by
  rw [listKeys_insertMd5]
  by_cases hm : k ∈ listKeys d
  · simpa [hm] using h
  · simpa [hm] using List.Nodup.append h (List.nodup_singleton k) (by simpa using hm)

/-- A key is in the dictionary's key list exactly when lookup succeeds. -/
lemma mem_listKeys_iff_lookup (d : List (String × List String)) (j : String) :
    j ∈ listKeys d ↔ (d.lookup j).isSome := by
  induction d with
  | nil => simp [listKeys, List.lookup]
  | cons p rest ih =>
      obtain ⟨k', vs⟩ := p
      by_cases hj : j = k'
      · subst hj
        simp [listKeys, List.lookup]
      · have hjb : (j == k') = false := beq_eq_false_iff_ne.mpr hj
        simp [listKeys, List.lookup, hjb, hj, ih]

/-- A successful lookup comes from a dictionary entry. -/
lemma mem_of_lookup_eq_some (d : List (String × List String)) (j : String) (v : List String)
    (h : d.lookup j = some v) : (j, v) ∈ d := by
  induction d with
  | nil => simp [List.lookup] at h
  | cons p rest ih =>
      obtain ⟨k', vs⟩ := p
      by_cases hj : j = k'
      · subst hj
        simp only [List.lookup, beq_self_eq_true, cond_true, Option.some_inj] at h
        subst h
        exact List.mem_cons_self _ _
      · have hjb : (j == k') = false := beq_eq_false_iff_ne.mpr hj
        simp only [List.lookup, hjb, cond_false] at h
        exact List.mem_cons_of_mem _ (ih h)

/-- In a dictionary with distinct keys, membership and lookup agree. -/
lemma mem_iff_lookup_of_nodup (d : List (String × List String))
    (hnd : (listKeys d).Nodup) (j : String) (v : List String) :
    (j, v) ∈ d ↔ d.lookup j = some v := by
  refine ⟨fun hm => ?_, mem_of_lookup_eq_some d j v⟩
  induction d with
  | nil => cases hm
  | cons p rest ih =>
      obtain ⟨k', vs⟩ := p
      simp only [listKeys, List.map_cons, List.nodup_cons] at hnd
      rcases List.mem_cons.mp hm with h | h
      · injection h with h1 h2
        subst h1
        subst h2
        simp [List.lookup]
      · have hj : j ≠ k' := by
          intro hjk
          subst hjk
          exact hnd.1 (List.mem_map_of_mem Prod.fst h)
        have hjb : (j == k') = false := beq_eq_false_iff_ne.mpr hj
        simp only [List.lookup, hjb, cond_false]
        exact ih hnd.2 h

/-! ## Characterizing the scan -/

/-- The paths, in traversal order, of the files whose fingerprint is `j`. -/
def matchingPaths (files : List FSFile) (j : String) : List String :=
  (files.filter (fun f => calculate_md5 f == j)).map FSFile.path

/-- Unfolding `matchingPaths` over a cons. -/
lemma matchingPaths_cons (f : FSFile) (fs : List FSFile) (j : String) :
    matchingPaths (f :: fs) j =
      if calculate_md5 f = j then f.path :: matchingPaths fs j else matchingPaths fs j := by
  by_cases hf : calculate_md5 f = j
  · have hfb : (calculate_md5 f == j) = true := beq_iff_eq.mpr hf
    simp [matchingPaths, List.filter_cons, hfb, hf]
  · have hfb : (calculate_md5 f == j) = false := beq_eq_false_iff_ne.mpr hf
    simp [matchingPaths, List.filter_cons, hfb, hf]

/-- Looking a non-sentinel digest up in the dictionary built by folding
the scan step from `acc` over `files`: the digest's path list grows by
exactly the paths of the files whose fingerprint equals that digest. -/
lemma lookup_foldl_scanStep (j : String) (hj : j ≠ "") :
    ∀ (files : List FSFile) (acc : List (String × List String)),
      (files.foldl scanStep acc).lookup j =
        if (matchingPaths files j).isEmpty then acc.lookup j
        else some (((acc.lookup j).getD []) ++ matchingPaths files j) := by
  intro files
  induction files with
  | nil => intro acc; simp [matchingPaths]
  | cons f fs ih =>
      intro acc
      simp only [List.foldl_cons]
      by_cases hf : calculate_md5 f = j
      · have hne : calculate_md5 f ≠ "" := by rw [hf]; exact hj
        have hstep : scanStep acc f = insertMd5 acc j f.path := by
          rw [scanStep, if_pos hne, hf]
        rw [hstep, ih, lookup_insertMd5, if_pos rfl, matchingPaths_cons, if_pos hf]
        by_cases hemp : (matchingPaths fs j).isEmpty
        · have : matchingPaths fs j = [] := List.isEmpty_iff.mp hemp
          simp [this]
        · simp only [hemp, if_false, List.isEmpty_cons, List.isEmpty_iff]
          simp [Option.getD_some, List.append_assoc]
      · rw [matchingPaths_cons, if_neg hf]
        by_cases hs : calculate_md5 f = ""
        · have hstep : scanStep acc f = acc := by
            rw [scanStep, if_neg (by simpa using hs)]
          rw [hstep, ih]
        · have hstep : scanStep acc f = insertMd5 acc (calculate_md5 f) f.path := by
            rw [scanStep, if_pos hs]
          have hjm : j ≠ calculate_md5 f := fun h => hf h.symm
          rw [hstep, ih, lookup_insertMd5, if_neg hjm]

/-- Looking a non-sentinel digest up in a finished scan. -/
lemma lookup_scan_directory (files : List FSFile) (j : String) (hj : j ≠ "") :
    (scan_directory files).lookup j =
      if (matchingPaths files j).isEmpty then none else some (matchingPaths files j) := by
  rw [scan_directory, lookup_foldl_scanStep j hj]
  simp [List.lookup]

/-- Folding the scan step preserves distinctness of the digest keys. -/
lemma nodup_foldl_scanStep :
    ∀ (files : List FSFile) (acc : List (String × List String)),
      (listKeys acc).Nodup → (listKeys (files.foldl scanStep acc)).Nodup := by
  intro files
  induction files with
  | nil => intro acc h; exact h
  | cons f fs ih =>
      intro acc h
      simp only [List.foldl_cons]
      refine ih _ ?_
      rw [scanStep]
      by_cases hs : calculate_md5 f = ""
      · rw [if_neg (by simpa using hs)]
        exact h
      · rw [if_pos hs]
        exact nodup_insertMd5 _ _ _ h

/-- The digest keys of a finished scan are pairwise distinct. -/
lemma scan_directory_keys_nodup (files : List FSFile) :
    (listKeys (scan_directory files)).Nodup :=
  nodup_foldl_scanStep files [] (by simp [listKeys])

/-- Every key the scan fold adds is a non-sentinel digest. -/
lemma mem_listKeys_foldl_scanStep :
    ∀ (files : List FSFile) (acc : List (String × List String)) (j : String),
      j ∈ listKeys (files.foldl scanStep acc) → j ∈ listKeys acc ∨ j ≠ "" := by
  intro files
  induction files with
  | nil => intro acc j h; exact Or.inl h
  | cons f fs ih =>
      intro acc j h
      simp only [List.foldl_cons] at h
      rcases ih _ j h with hacc | hne
      · rw [scanStep] at hacc
        by_cases hs : calculate_md5 f = ""
        · rw [if_neg (by simpa using hs)] at hacc
          exact Or.inl hacc
        · rw [if_pos hs, listKeys_insertMd5] at hacc
          by_cases hm : calculate_md5 f ∈ listKeys acc
          · rw [if_pos hm] at hacc
            exact Or.inl hacc
          · rw [if_neg hm] at hacc
            rcases List.mem_append.mp hacc with h1 | h1
            · exact Or.inl h1
            · right
              rw [List.mem_singleton.mp h1]
              exact hs
      · exact Or.inr hne

/-- Every digest key of a finished scan is a non-empty string. -/
lemma scan_directory_keys_ne_empty (files : List FSFile) (j : String)
    (h : j ∈ listKeys (scan_directory files)) : j ≠ "" := by
  rcases mem_listKeys_foldl_scanStep files [] j h with h1 | h1
  · simp [listKeys] at h1
  · exact h1

/-- The scan loops of the two scripts are the same function: the `None`
guard and the `""` guard skip exactly the same files. -/
lemma dupScanStep_eq (d : List (String × List String)) (f : FSFile) :
    dupScanStep d f = scanStep d f := by
  rw [dupScanStep, calculate_md5_opt_eq]
  cases hf : f.content with
  | none =>
      have hs : calculate_md5 f = "" := (calculate_md5_eq_empty_iff f).mpr hf
      simp [hf, scanStep, hs]
  | some bytes =>
      have hs : calculate_md5 f ≠ "" := by
        rw [Ne, calculate_md5_eq_empty_iff, hf]
        simp
      simp [hf, scanStep, hs]

/-- The duplicate finder's `md5_dict` equals the compare script's scan. -/
lemma md5_index_eq_scan (files : List FSFile) : md5_index files = scan_directory files := by
  have h : dupScanStep = scanStep := funext fun d => funext fun f => dupScanStep_eq d f
  rw [md5_index, h, scan_directory]

/-- Folding the scan step ignores unreadable files entirely. -/
lemma foldl_scanStep_filter_readable :
    ∀ (files : List FSFile) (acc : List (String × List String)),
      files.foldl scanStep acc =
        (files.filter (fun f => f.content.isSome)).foldl scanStep acc := by
  intro files
  induction files with
  | nil => intro acc; rfl
  | cons f fs ih =>
      intro acc
      cases hf : f.content with
      | none =>
          have hs : calculate_md5 f = "" := (calculate_md5_eq_empty_iff f).mpr hf
          have hstep : scanStep acc f = acc := by rw [scanStep, if_neg (by simpa using hs)]
          simp only [List.foldl_cons, List.filter_cons, hf, Option.isSome_none, Bool.false_eq_true,
            if_false, hstep]
          exact ih acc
      | some bytes =>
          simp only [List.foldl_cons, List.filter_cons, hf, Option.isSome_some, if_true]
          exact ih _

/-- A finished scan equals the scan of only the readable files. -/
lemma scan_directory_filter_readable (files : List FSFile) :
    scan_directory files = scan_directory (files.filter (fun f => f.content.isSome)) :=
  foldl_scanStep_filter_readable files []

/-! ## Helper lemmas connecting scan entries to files -/

/-- Every entry of a finished scan is the traversal-ordered path list of
the files bearing its digest, and its digest is not the sentinel. -/
lemma mem_scan_elim (files : List FSFile) (d : String) (ps : List String)
    (h : (d, ps) ∈ scan_directory files) :
    d ≠ "" ∧ ps = matchingPaths files d := by
  have hd : d ∈ listKeys (scan_directory files) := List.mem_map_of_mem Prod.fst h
  have hne := scan_directory_keys_ne_empty files d hd
  have hl := (mem_iff_lookup_of_nodup _ (scan_directory_keys_nodup files) d ps).mp h
  rw [lookup_scan_directory files d hne] at hl
  by_cases hemp : (matchingPaths files d).isEmpty
  · rw [if_pos hemp] at hl
    cases hl
  · rw [if_neg hemp] at hl
    exact ⟨hne, (Option.some_inj.mp hl).symm⟩

/-- A readable file's path is recorded in the scan under its digest. -/
lemma path_mem_scan (files : List FSFile) (f : FSFile) (hf : f ∈ files)
    (hr : f.content.isSome) :
    (calculate_md5 f, matchingPaths files (calculate_md5 f)) ∈ scan_directory files ∧
      f.path ∈ matchingPaths files (calculate_md5 f) := by
  have hne : calculate_md5 f ≠ "" := by
    rw [Ne, calculate_md5_eq_empty_iff]
    intro hc
    rw [hc] at hr
    cases hr
  have hmem : f.path ∈ matchingPaths files (calculate_md5 f) :=
    List.mem_map_of_mem _ (List.mem_filter.mpr ⟨hf, beq_iff_eq.mpr rfl⟩)
  have hemp : ¬ (matchingPaths files (calculate_md5 f)).isEmpty := by
    intro hi
    rw [List.isEmpty_iff] at hi
    rw [hi] at hmem
    cases hmem
  have hl : (scan_directory files).lookup (calculate_md5 f) =
      some (matchingPaths files (calculate_md5 f)) := by
    rw [lookup_scan_directory files _ hne, if_neg hemp]
  exact ⟨mem_of_lookup_eq_some _ _ _ hl, hmem⟩

/-- A path in a digest's list comes from a file with that fingerprint. -/
lemma matchingPaths_mem_elim (files : List FSFile) (d p : String)
    (hp : p ∈ matchingPaths files d) :
    ∃ g, g ∈ files ∧ g.path = p ∧ calculate_md5 g = d := by
  rw [matchingPaths] at hp
  obtain ⟨g, hg, hgp⟩ := List.mem_map.mp hp
  have hf := List.mem_filter.mp hg
  exact ⟨g, hf.1, hgp, beq_iff_eq.mp hf.2⟩

/-! ## The claims -/

/-- C5: the fingerprint is a function of the content bytes alone — two
files with identical byte content get identical digests from both
scripts' `calculate_md5`, whatever their paths, mtimes or permissions. -/
theorem fingerprint_content_only (f g : FSFile) (h : f.content = g.content) :
    calculate_md5 f = calculate_md5 g ∧ calculate_md5_opt f = calculate_md5_opt g := by
  constructor
  · simp only [calculate_md5, h]
  · simp only [calculate_md5_opt, h]

/-- C5 witness: two concrete files with the same bytes but different
names and metadata receive the same digest. -/
theorem fingerprint_content_only_witness :
    calculate_md5 ⟨"dir1/img1.png", 5, 420, some [1, 2, 3]⟩ =
      calculate_md5 ⟨"dir2/picture.png", 99, 600, some [1, 2, 3]⟩ ∧
    calculate_md5_opt ⟨"dir1/img1.png", 5, 420, some [1, 2, 3]⟩ =
      calculate_md5_opt ⟨"dir2/picture.png", 99, 600, some [1, 2, 3]⟩ :=
  fingerprint_content_only ⟨"dir1/img1.png", 5, 420, some [1, 2, 3]⟩
    ⟨"dir2/picture.png", 99, 600, some [1, 2, 3]⟩ rfl

/-- C6: feeding the 4096-byte chunks of the content one by one into the
incremental accumulator and finalizing yields exactly the digest of the
whole content fed in one step — the chunk decomposition is invisible in
the finalized digest. -/
theorem chunked_hash_eq_whole (bytes : List Nat) :
    md5_hexdigest ((chunksOf 4096 bytes).foldl md5_update md5_new) =
      md5_hexdigest (md5_update md5_new bytes) := by
  rw [foldl_md5_update, md5_update, md5_new, List.nil_append, List.nil_append,
    chunksOf_flatten 4096 (by omega)]

/-- C9: a readable zero-byte file fingerprints successfully to the MD5
of the empty byte string (the chunk loop runs zero iterations), so it is
recorded in the digest index and all empty files share one group. -/
theorem empty_file_fingerprint (f : FSFile) (files : List FSFile)
    (h : f.content = some []) (hf : f ∈ files) :
    calculate_md5 f = "d41d8cd98f00b204e9800998ecf8427e" ∧
    chunksOf 4096 [] = [] ∧
    ∃ ps, (scan_directory files).lookup "d41d8cd98f00b204e9800998ecf8427e" = some ps ∧
      f.path ∈ ps := by
  have hmd5 : calculate_md5 f = "d41d8cd98f00b204e9800998ecf8427e" :=
    (calculate_md5_some f [] h).trans md5Hex_nil
  refine ⟨hmd5, rfl, ?_⟩
  have hpm := path_mem_scan files f hf (by rw [h]; rfl)
  have hl := (mem_iff_lookup_of_nodup _ (scan_directory_keys_nodup files) _ _).mp hpm.1
  rw [hmd5] at hl hpm
  exact ⟨_, hl, hpm.2⟩

set_option maxRecDepth 4096 in
/-- C9 witness: a concrete tree with one empty file. -/
theorem empty_file_fingerprint_witness :
    calculate_md5 ⟨"t/empty.txt", 0, 0, some []⟩ = "d41d8cd98f00b204e9800998ecf8427e" ∧
    chunksOf 4096 [] = [] ∧
    ∃ ps, (scan_directory [⟨"t/empty.txt", 0, 0, some []⟩, ⟨"t/a.bin", 0, 0, some [1]⟩]).lookup
        "d41d8cd98f00b204e9800998ecf8427e" = some ps ∧ "t/empty.txt" ∈ ps :=
  empty_file_fingerprint ⟨"t/empty.txt", 0, 0, some []⟩
    [⟨"t/empty.txt", 0, 0, some []⟩, ⟨"t/a.bin", 0, 0, some [1]⟩] rfl
    (List.mem_cons_self _ _)

/-- C10: a successful fingerprint is always a 32-character string of
hexadecimal digits, hence never the `""` sentinel (and the `None`
sentinel is structurally distinct), so the scanner's truthiness guard
keeps a file's path in the index exactly when its read succeeded. -/
theorem md5_sentinel_disjoint :
    (∀ f : FSFile, f.content.isSome →
      (calculate_md5 f).length = 32 ∧ (∀ c ∈ (calculate_md5 f).data, c ∈ hexDigits) ∧
      calculate_md5 f ≠ "" ∧ calculate_md5_opt f = some (calculate_md5 f)) ∧
    (∀ files : List FSFile, (files.map FSFile.path).Nodup → ∀ f ∈ files,
      ((∃ d ps, (d, ps) ∈ scan_directory files ∧ f.path ∈ ps) ↔ f.content.isSome)) := by
  constructor
  · intro f hr
    obtain ⟨bytes, hb⟩ := Option.isSome_iff_exists.mp hr
    have hm := calculate_md5_some f bytes hb
    refine ⟨by rw [hm]; exact md5Hex_length bytes, by rw [hm]; exact md5Hex_chars bytes,
      by rw [hm]; exact md5Hex_ne_empty bytes, ?_⟩
    rw [calculate_md5_opt_eq, if_pos hr]
  · intro files hnd f hf
    constructor
    · rintro ⟨d, ps, hmem, hpath⟩
      obtain ⟨hdne, hps⟩ := mem_scan_elim files d ps hmem
      rw [hps] at hpath
      obtain ⟨g, hg, hgp, hgd⟩ := matchingPaths_mem_elim files d f.path hpath
      have hgr : g.content.isSome := by
        cases hc : g.content with
        | none => exact absurd ((calculate_md5_eq_empty_iff g).mpr hc) (hgd ▸ hdne)
        | some _ => rfl
      have : g = f := List.inj_on_of_nodup_map hnd hg hf hgp
      rw [← this]
      exact hgr
    · intro hr
      have hpm := path_mem_scan files f hf hr
      exact ⟨calculate_md5 f, matchingPaths files (calculate_md5 f), hpm.1, hpm.2⟩

set_option maxRecDepth 4096 in
/-- C10 witness: concrete instantiation of both parts — a readable file
fingerprints to a 32-character hex string, and in a concrete tree the
readable file is indexed while the unreadable one is excluded. -/
theorem md5_sentinel_disjoint_witness :
    ((calculate_md5 ⟨"t/a", 0, 0, some [7]⟩).length = 32 ∧
      (∀ c ∈ (calculate_md5 ⟨"t/a", 0, 0, some [7]⟩).data, c ∈ hexDigits) ∧
      calculate_md5 ⟨"t/a", 0, 0, some [7]⟩ ≠ "" ∧
      calculate_md5_opt ⟨"t/a", 0, 0, some [7]⟩ = some (calculate_md5 ⟨"t/a", 0, 0, some [7]⟩)) ∧
    ((∃ d ps, (d, ps) ∈ scan_directory [⟨"t/a", 0, 0, some [7]⟩, ⟨"t/b", 0, 0, none⟩] ∧
        "t/a" ∈ ps) ↔ (some [7] : Option (List Nat)).isSome) :=
  ⟨md5_sentinel_disjoint.1 ⟨"t/a", 0, 0, some [7]⟩ rfl,
   md5_sentinel_disjoint.2 [⟨"t/a", 0, 0, some [7]⟩, ⟨"t/b", 0, 0, none⟩] (by decide)
     ⟨"t/a", 0, 0, some [7]⟩ (List.mem_cons_self _ _)⟩

/-- A nodup list has more than one element iff it has two distinct members. -/
lemma one_lt_length_iff_two_mem (l : List String) (hnd : l.Nodup) :
    1 < l.length ↔ ∃ p q, p ≠ q ∧ p ∈ l ∧ q ∈ l := by
  constructor
  · intro hl
    cases l with
    | nil => simp at hl
    | cons a t =>
        cases t with
        | nil => simp at hl
        | cons b t2 =>
            have hab : a ≠ b := by
              intro h
              subst h
              simp at hnd
            exact ⟨a, b, hab, by simp, by simp⟩
  · rintro ⟨p, q, hpq, hp, hq⟩
    cases l with
    | nil => cases hp
    | cons a t =>
        cases t with
        | nil =>
            rw [List.mem_singleton] at hp hq
            exact absurd (hp.trans hq.symm) hpq
        | cons b t2 =>
            simp only [List.length_cons]
            omega

/-- With pairwise-distinct file paths, each digest's path list is nodup. -/
lemma matchingPaths_nodup (files : List FSFile) (d : String)
    (hnd : (files.map FSFile.path).Nodup) : (matchingPaths files d).Nodup :=
  hnd.sublist (List.Sublist.map FSFile.path (List.filter_sublist files))

/-- The path list stored under any scanned digest key is non-empty. -/
lemma lookup_scan_getD_ne_nil (files : List FSFile) (m : String)
    (hm : m ∈ listKeys (scan_directory files)) :
    ((scan_directory files).lookup m).getD [] ≠ [] := by
  obtain ⟨x, hx⟩ := Option.isSome_iff_exists.mp ((mem_listKeys_iff_lookup _ m).mp hm)
  obtain ⟨hne, hxeq⟩ := mem_scan_elim files m x (mem_of_lookup_eq_some _ _ _ hx)
  have hne2 : ¬ (matchingPaths files m).isEmpty := by
    rw [lookup_scan_directory files m hne] at hx
    by_cases hemp : (matchingPaths files m).isEmpty
    · rw [if_pos hemp] at hx
      cases hx
    · exact hemp
  rw [hx, Option.getD_some, hxeq]
  intro hc
  exact hne2 (List.isEmpty_iff.mpr hc)

/-- C1: a digest appears in `compare_directories` exactly when it is a
key of both scans, and its group carries exactly the first scan's path
list as side A and the second scan's as side B; a digest present in only
one index never appears. -/
theorem compare_directories_matching (files1 files2 : List FSFile) (d : String)
    (la lb : List String) :
    ((d, la, lb) ∈ compare_directories files1 files2 ↔
      (scan_directory files1).lookup d = some la ∧
      (scan_directory files2).lookup d = some lb) ∧
    ((∃ xa xb, (d, xa, xb) ∈ compare_directories files1 files2) ↔
      d ∈ listKeys (scan_directory files1) ∧ d ∈ listKeys (scan_directory files2)) := by
  have hmain : ∀ (x : String) (ya yb : List String),
      (x, ya, yb) ∈ compare_directories files1 files2 ↔
        (scan_directory files1).lookup x = some ya ∧
        (scan_directory files2).lookup x = some yb := by
    intro x ya yb
    simp only [compare_directories, List.mem_map, List.mem_mergeSort, List.mem_filter]
    constructor
    · rintro ⟨m, ⟨hm1, hm2⟩, heq⟩
      have hm2m : m ∈ listKeys (scan_directory files2) := by simpa using hm2
      obtain ⟨e1, e2⟩ := Prod.mk.injEq .. ▸ heq
      obtain ⟨e2, e3⟩ := Prod.mk.injEq .. ▸ e2
      subst e1
      obtain ⟨v1, hv1⟩ := Option.isSome_iff_exists.mp ((mem_listKeys_iff_lookup _ m).mp hm1)
      obtain ⟨v2, hv2⟩ := Option.isSome_iff_exists.mp ((mem_listKeys_iff_lookup _ m).mp hm2m)
      rw [hv1, Option.getD_some] at e2
      rw [hv2, Option.getD_some] at e3
      rw [hv1, hv2, e2, e3]
      exact ⟨rfl, rfl⟩
    · rintro ⟨h1, h2⟩
      have hk2 : x ∈ listKeys (scan_directory files2) :=
        (mem_listKeys_iff_lookup _ x).mpr (by rw [h2]; rfl)
      refine ⟨x, ⟨(mem_listKeys_iff_lookup _ x).mpr (by rw [h1]; rfl), by simpa using hk2⟩, ?_⟩
      rw [h1, h2]
      rfl
  refine ⟨hmain d la lb, ?_, ?_⟩
  · rintro ⟨xa, xb, hx⟩
    obtain ⟨h1, h2⟩ := (hmain d xa xb).mp hx
    exact ⟨(mem_listKeys_iff_lookup _ d).mpr (by rw [h1]; rfl),
           (mem_listKeys_iff_lookup _ d).mpr (by rw [h2]; rfl)⟩
  · rintro ⟨hk1, hk2⟩
    obtain ⟨v1, hv1⟩ := Option.isSome_iff_exists.mp ((mem_listKeys_iff_lookup _ d).mp hk1)
    obtain ⟨v2, hv2⟩ := Option.isSome_iff_exists.mp ((mem_listKeys_iff_lookup _ d).mp hk2)
    exact ⟨v1, v2, (hmain d v1 v2).mpr ⟨hv1, hv2⟩⟩

/-- C2: with a valid root, a digest has a group in the duplicate
finder's result exactly when at least two distinct paths in the index
map to it, the group's path list is exactly the index's list for that
digest, and a digest with a single path never appears. -/
theorem find_duplicate_files_correct (r : RootDir) (h1 : r.present = true)
    (h2 : r.isDir = true) (hnd : (r.files.map FSFile.path).Nodup)
    (d : String) (ps : List String) :
    find_duplicate_files r = Except.ok (duplicate_groups r.files) ∧
    ((d, ps) ∈ duplicate_groups r.files ↔
      (md5_index r.files).lookup d = some ps ∧ 1 < ps.length) ∧
    ((∃ qs, (d, qs) ∈ duplicate_groups r.files) ↔
      ∃ p q, p ≠ q ∧ ∃ qs, (md5_index r.files).lookup d = some qs ∧ p ∈ qs ∧ q ∈ qs) := by
  have hscan : md5_index r.files = scan_directory r.files := md5_index_eq_scan r.files
  have hfd : find_duplicate_files r = Except.ok (duplicate_groups r.files) := by
    rw [find_duplicate_files, if_neg (by simp [h1]), if_neg (by simp [h1, h2])]
  have hiff : ∀ qs : List String, ((d, qs) ∈ duplicate_groups r.files ↔
      (md5_index r.files).lookup d = some qs ∧ 1 < qs.length) := by
    intro qs
    rw [duplicate_groups, hscan, List.mem_filter]
    constructor
    · rintro ⟨hmem, hlen⟩
      exact ⟨(mem_iff_lookup_of_nodup _ (scan_directory_keys_nodup _) _ _).mp hmem,
        by simpa using hlen⟩
    · rintro ⟨hl, hlen⟩
      exact ⟨(mem_iff_lookup_of_nodup _ (scan_directory_keys_nodup _) _ _).mpr hl,
        by simpa using hlen⟩
  have hqsnd : ∀ qs : List String, (md5_index r.files).lookup d = some qs → qs.Nodup := by
    intro qs hl
    rw [hscan] at hl
    obtain ⟨_, hqeq⟩ := mem_scan_elim r.files d qs (mem_of_lookup_eq_some _ _ _ hl)
    rw [hqeq]
    exact matchingPaths_nodup r.files d hnd
  refine ⟨hfd, hiff ps, ?_, ?_⟩
  · rintro ⟨qs, hq⟩
    obtain ⟨hl, hlen⟩ := (hiff qs).mp hq
    obtain ⟨p, q, hpq, hp, hq2⟩ := (one_lt_length_iff_two_mem qs (hqsnd qs hl)).mp hlen
    exact ⟨p, q, hpq, qs, hl, hp, hq2⟩
  · rintro ⟨p, q, hpq, qs, hl, hp, hq2⟩
    refine ⟨qs, (hiff qs).mpr ⟨hl, ?_⟩⟩
    exact (one_lt_length_iff_two_mem qs (hqsnd qs hl)).mpr ⟨p, q, hpq, hp, hq2⟩

set_option maxRecDepth 4096 in
/-- C2 witness: in a concrete tree with two identical files and one
distinct file, exactly the shared digest forms a group carrying both
paths. -/
theorem find_duplicate_files_correct_witness :
    find_duplicate_files ⟨true, true, [⟨"t/x", 0, 0, some [5]⟩, ⟨"t/y", 0, 0, some [5]⟩,
        ⟨"t/z", 0, 0, some [9]⟩]⟩ =
      Except.ok (duplicate_groups [⟨"t/x", 0, 0, some [5]⟩, ⟨"t/y", 0, 0, some [5]⟩,
        ⟨"t/z", 0, 0, some [9]⟩]) ∧
    ((calculate_md5 ⟨"t/x", 0, 0, some [5]⟩, ["t/x", "t/y"]) ∈
        duplicate_groups [⟨"t/x", 0, 0, some [5]⟩, ⟨"t/y", 0, 0, some [5]⟩,
          ⟨"t/z", 0, 0, some [9]⟩] ↔
      (md5_index [⟨"t/x", 0, 0, some [5]⟩, ⟨"t/y", 0, 0, some [5]⟩,
          ⟨"t/z", 0, 0, some [9]⟩]).lookup (calculate_md5 ⟨"t/x", 0, 0, some [5]⟩) =
        some ["t/x", "t/y"] ∧ 1 < (["t/x", "t/y"] : List String).length) ∧
    ((∃ qs, (calculate_md5 ⟨"t/x", 0, 0, some [5]⟩, qs) ∈
        duplicate_groups [⟨"t/x", 0, 0, some [5]⟩, ⟨"t/y", 0, 0, some [5]⟩,
          ⟨"t/z", 0, 0, some [9]⟩]) ↔
      ∃ p q, p ≠ q ∧ ∃ qs, (md5_index [⟨"t/x", 0, 0, some [5]⟩, ⟨"t/y", 0, 0, some [5]⟩,
          ⟨"t/z", 0, 0, some [9]⟩]).lookup (calculate_md5 ⟨"t/x", 0, 0, some [5]⟩) =
        some qs ∧ p ∈ qs ∧ q ∈ qs) :=
  find_duplicate_files_correct ⟨true, true, [⟨"t/x", 0, 0, some [5]⟩, ⟨"t/y", 0, 0, some [5]⟩,
    ⟨"t/z", 0, 0, some [9]⟩]⟩ rfl rfl (by decide) (calculate_md5 ⟨"t/x", 0, 0, some [5]⟩)
    ["t/x", "t/y"]

/-- C3: a file whose read raises is excluded from the digest index
entirely — its path appears under no digest — and the scan's result over
the whole tree equals the scan over just the readable files, in both
scripts; one unreadable file never aborts the scan. -/
theorem scan_skips_unreadable (files : List FSFile) (f : FSFile)
    (hf : f ∈ files) (hraise : f.content = none)
    (hnd : (files.map FSFile.path).Nodup) :
    (∀ d ps, (d, ps) ∈ scan_directory files → f.path ∉ ps) ∧
    scan_directory files = scan_directory (files.filter (fun g => g.content.isSome)) ∧
    md5_index files = md5_index (files.filter (fun g => g.content.isSome)) := by
  refine ⟨?_, scan_directory_filter_readable files, ?_⟩
  · intro d ps hmem hpath
    obtain ⟨hdne, hps⟩ := mem_scan_elim files d ps hmem
    rw [hps] at hpath
    obtain ⟨g, hg, hgp, hgd⟩ := matchingPaths_mem_elim files d f.path hpath
    have hgr : g.content ≠ none := by
      intro hc
      exact (hgd ▸ hdne) ((calculate_md5_eq_empty_iff g).mpr hc)
    exact hgr (by rw [List.inj_on_of_nodup_map hnd hg hf hgp, hraise])
  · rw [md5_index_eq_scan, md5_index_eq_scan]
    exact scan_directory_filter_readable files

set_option maxRecDepth 4096 in
/-- C3 witness: a concrete tree with an unreadable file in the middle. -/
theorem scan_skips_unreadable_witness :
    (∀ d ps, (d, ps) ∈ scan_directory [⟨"t/a", 0, 0, some [1]⟩, ⟨"t/broken", 0, 0, none⟩,
        ⟨"t/c", 0, 0, some [2]⟩] → "t/broken" ∉ ps) ∧
    scan_directory [⟨"t/a", 0, 0, some [1]⟩, ⟨"t/broken", 0, 0, none⟩, ⟨"t/c", 0, 0, some [2]⟩] =
      scan_directory ([⟨"t/a", 0, 0, some [1]⟩, ⟨"t/broken", 0, 0, none⟩,
        ⟨"t/c", 0, 0, some [2]⟩].filter (fun g => g.content.isSome)) ∧
    md5_index [⟨"t/a", 0, 0, some [1]⟩, ⟨"t/broken", 0, 0, none⟩, ⟨"t/c", 0, 0, some [2]⟩] =
      md5_index ([⟨"t/a", 0, 0, some [1]⟩, ⟨"t/broken", 0, 0, none⟩,
        ⟨"t/c", 0, 0, some [2]⟩].filter (fun g => g.content.isSome)) :=
  scan_skips_unreadable [⟨"t/a", 0, 0, some [1]⟩, ⟨"t/broken", 0, 0, none⟩,
    ⟨"t/c", 0, 0, some [2]⟩] ⟨"t/broken", 0, 0, none⟩
    (List.mem_cons_of_mem _ (List.mem_cons_self _ _)) rfl (by decide)

/-- C8: every emitted group is well-shaped — in duplicate mode the path
list has length greater than one (side B does not exist in that script's
group shape), and in cross-tree mode both sides are non-empty. -/
theorem match_group_shape (files files1 files2 : List FSFile) :
    (∀ g ∈ duplicate_groups files, 1 < g.2.length) ∧
    (∀ g ∈ compare_directories files1 files2, g.2.1 ≠ [] ∧ g.2.2 ≠ []) := by
  constructor
  · intro g hg
    have := (List.mem_filter.mp hg).2
    simpa using this
  · intro g hg
    simp only [compare_directories, List.mem_map, List.mem_mergeSort, List.mem_filter] at hg
    obtain ⟨m, ⟨hm1, hm2⟩, heq⟩ := hg
    have hm2m : m ∈ listKeys (scan_directory files2) := by simpa using hm2
    rw [← heq]
    exact ⟨lookup_scan_getD_ne_nil files1 m hm1, lookup_scan_getD_ne_nil files2 m hm2m⟩

/-- A four-file tree whose duplicate groups come out in non-sorted
digest order: the two empty files are traversed first, and the digest of
the empty content is hex-lexicographically greater than the digest of
the single zero byte. -/
def exDupFiles : List FSFile :=
  [⟨"t/e1", 0, 0, some []⟩, ⟨"t/e2", 0, 0, some []⟩,
   ⟨"t/z1", 0, 0, some [0]⟩, ⟨"t/z2", 0, 0, some [0]⟩]

set_option maxRecDepth 8192 in
/-- C4 counterexample: the duplicate finder emits its groups in dict
insertion order (first appearance during traversal), not sorted by
digest — on `exDupFiles` the digest sequence is `[d41d…, 93b8…]`, which
is not hex-lexicographically sorted. -/
theorem duplicate_groups_unsorted :
    find_duplicate_files ⟨true, true, exDupFiles⟩ = Except.ok (duplicate_groups exDupFiles) ∧
    (duplicate_groups exDupFiles).map Prod.fst =
      ["d41d8cd98f00b204e9800998ecf8427e", "93b885adfe0da089cdf634904fd59f71"] ∧
    ¬ ((duplicate_groups exDupFiles).map Prod.fst).Sorted (fun a b : String => a ≤ b) := by
  have hmap : (duplicate_groups exDupFiles).map Prod.fst =
      ["d41d8cd98f00b204e9800998ecf8427e", "93b885adfe0da089cdf634904fd59f71"] := by decide
  refine ⟨rfl, hmap, ?_⟩
  intro hs
  rw [hmap] at hs
  have hle : ("d41d8cd98f00b204e9800998ecf8427e" : String) ≤
      "93b885adfe0da089cdf634904fd59f71" :=
    List.rel_of_sorted_cons hs _ (by simp)
  have hlt : ("93b885adfe0da089cdf634904fd59f71" : String) <
      "d41d8cd98f00b204e9800998ecf8427e" := by
    rw [String.lt_iff_toList_lt]
    decide
  exact absurd hle (not_le.mpr hlt)

/-- C4 amended: the cross-tree comparison emits its groups sorted by
digest in hex-lexicographic order for every input (the duplicate finder
emits dict insertion order instead, as the counterexample shows). -/
theorem compare_directories_sorted (files1 files2 : List FSFile) :
    ((compare_directories files1 files2).map Prod.fst).Sorted (fun a b : String => a ≤ b) := by
  simp only [compare_directories, List.map_map]
  have hid : (Prod.fst ∘ fun m : String =>
      (m, ((scan_directory files1).lookup m).getD [],
          ((scan_directory files2).lookup m).getD [])) = fun m : String => m := rfl
  rw [hid, List.map_id']
  exact List.sorted_mergeSort' _

/-- C7 counterexample: in the cross-tree script an invalid first root is
reported and no scan runs, but `main` just returns — the process exit
status is 0, not non-zero. -/
theorem compare_main_invalid_root_exit_zero :
    compare_resources_main ⟨false, false, []⟩ ⟨true, true, []⟩ = (0, none) := rfl

/-- C7 amended: an invalid root is fatal in both scripts in the sense
that no scan is attempted; the duplicate finder exits with status 1 via
`sys.exit(1)`, while the cross-tree script reports the error and exits
with status 0 (it contains no `sys.exit`); per-file skips never change
an exit status. -/
theorem invalid_root_behavior (r r1 r2 : RootDir) :
    (¬ (r.present = true ∧ r.isDir = true) → find_duplicate_files r = Except.error 1) ∧
    (r.present = true → r.isDir = true →
      find_duplicate_files r = Except.ok (duplicate_groups r.files)) ∧
    (¬ (r1.present = true ∧ r1.isDir = true) → compare_resources_main r1 r2 = (0, none)) ∧
    (compare_resources_main r1 r2).1 = 0 := by
  obtain ⟨p, dflag, fs⟩ := r
  obtain ⟨p1, dflag1, fs1⟩ := r1
  obtain ⟨p2, dflag2, fs2⟩ := r2
  cases p <;> cases dflag <;> cases p1 <;> cases dflag1 <;> cases p2 <;> cases dflag2 <;>
    simp [find_duplicate_files, compare_resources_main]

/-- C7 amended witness: concrete roots — a missing root makes the
duplicate finder exit 1, a valid root returns its groups, and the
compare script exits 0 with no result on a missing root. -/
theorem invalid_root_behavior_witness :
    find_duplicate_files ⟨false, true, []⟩ = Except.error 1 ∧
    find_duplicate_files ⟨true, true, []⟩ = Except.ok (duplicate_groups []) ∧
    compare_resources_main ⟨false, true, []⟩ ⟨true, true, []⟩ = (0, none) ∧
    (compare_resources_main ⟨false, true, []⟩ ⟨true, true, []⟩).1 = 0 :=
  ⟨(invalid_root_behavior ⟨false, true, []⟩ ⟨false, true, []⟩ ⟨true, true, []⟩).1 (by simp),
   (invalid_root_behavior ⟨true, true, []⟩ ⟨false, true, []⟩ ⟨true, true, []⟩).2.1 rfl rfl,
   (invalid_root_behavior ⟨false, true, []⟩ ⟨false, true, []⟩ ⟨true, true, []⟩).2.2.1 (by simp),
   (invalid_root_behavior ⟨false, true, []⟩ ⟨false, true, []⟩ ⟨true, true, []⟩).2.2.2⟩
